import Mathlib

/-!
# Verification of the aggforce map abstraction layer

Shallow embedding of `src/aggforce/map/core.py` (`LinearMap`, `CLAMap`)
and of the contraction primitive `trjdot` from `aggforce.util` (only its
callers are in the sources, so `trjdot` is modelled from the spec).

Conventions of the embedding:
* floating point numbers are modelled by exact rationals `ℚ`; IEEE NaN is
  modelled by `Option ℚ` with `none` playing the role of `np.nan`
  (arithmetic with `none` yields `none`, as NaN propagates);
* numpy arrays are nested lists; a trajectory is `List (List (List (Option ℚ)))`
  of shape (frames, sites, dims);
* Python exceptions are modelled by `Except`/`Option` results.
-/

namespace Aggforce

/-- A scalar of a trajectory array: `none` models IEEE `nan`. -/
abbrev RVal := Option ℚ

/-- One frame of a trajectory: sites × dims. -/
abbrev Frame := List (List RVal)

/-- A trajectory array of shape (frames, sites, dims). -/
abbrev Traj := List Frame

/-- Multiplication of a finite coefficient with a possibly-NaN value:
`c * nan = nan`, matching IEEE semantics used by numpy. -/
def rmul (c : ℚ) (x : RVal) : RVal := x.map (fun v => c * v)

/-- Addition with NaN propagation. -/
def radd : RVal → RVal → RVal
  | some a, some b => some (a + b)
  | _, _ => none

/-! ## The `LinearMap` data model (core.py lines 46-155)

The stored coefficient matrix is `standard_matrix`; the tri-state
`handle_nans` flag is `False` / `True` / `"safe"` in the source
(`off` / `on` / `safe` here). Matrix entries are plain `ℚ`: when NaN
handling is enabled the constructor requires every entry finite
(core.py lines 149-154), and no claim depends on non-finite entries. -/

/-- The tri-state `handle_nans` configuration flag of `LinearMap`. -/
inductive NanMode
  | off
  | on
  | safe
  deriving DecidableEq, Repr

/-- Truthiness of the Python `handle_nans` value: both `True` and the
nonempty string `"safe"` are truthy, `False` is not. -/
def NanMode.truthy : NanMode → Bool
  | .off => false
  | _ => true

/-- Embedding of `LinearMap` (core.py lines 46-155): a stored coefficient
matrix of shape (n_cg, n_fg) plus the two configuration fields. -/
structure LinearMap where
  standard_matrix : List (List ℚ)
  handle_nans : NanMode
  nan_check_threshold : ℚ
  deriving DecidableEq, Repr

/-- Number of rows of a 2-d nested-list array (`shape[0]`). -/
def rowsOf (m : List (List ℚ)) : Nat := m.length

/-- Number of columns of a rectangular 2-d nested-list array (`shape[1]`). -/
def colsOf (m : List (List ℚ)) : Nat := ((m.head?).map List.length).getD 0

/-! ## `close_to_identity` (core.py lines 187-199)

The method reads the stored shape, compares `internal_shape[0]` with
`internal_shape[0]` (the guard of line 194, kept verbatim), builds
`np.identity(internal_shape[0])`, subtracts the stored matrix with numpy
broadcasting, and compares the Frobenius norm of the difference with the
threshold. Broadcasting of two 2-d shapes succeeds when each axis pair
agrees or has a 1; a failed broadcast raises `ValueError`, modelled by
`none`. The comparison `s ** 0.5 > t` on the nonnegative sum of squares
`s` is encoded exactly as `t < 0 ∨ t^2 < s`. -/

/-- numpy compatibility of one broadcast axis pair. -/
def bcompat (x y : Nat) : Bool := x == y || x == 1 || y == 1

/-- Index into a broadcast axis: a length-1 axis is repeated. -/
def bidx (n i : Nat) : Nat := if n = 1 then 0 else i

/-- Element of a 2-d nested list at (i, j), with 0 for out of range
(only used in range in well-formed broadcasts). -/
def getElem2 (m : List (List ℚ)) (i j : Nat) : ℚ :=
  (((m.get? i).bind (fun r => r.get? j)).getD 0)

/-- numpy broadcast subtraction of two 2-d arrays; `none` models the
`ValueError` numpy raises on incompatible shapes. -/
def broadcastSub (a b : List (List ℚ)) : Option (List (List ℚ)) :=
  if bcompat (rowsOf a) (rowsOf b) && bcompat (colsOf a) (colsOf b) then
    some ((List.range (max (rowsOf a) (rowsOf b))).map (fun i =>
      (List.range (max (colsOf a) (colsOf b))).map (fun j =>
        getElem2 a (bidx (rowsOf a) i) (bidx (colsOf a) j)
          - getElem2 b (bidx (rowsOf b) i) (bidx (colsOf b) j))))
  else none

/-- `np.identity n` as a nested list. -/
def identityMat (n : Nat) : List (List ℚ) :=
  (List.range n).map (fun i => (List.range n).map (fun j => if i = j then 1 else 0))

/-- Sum of squares of all entries of a 2-d nested list
(`((ident_like - m) ** 2).sum()`). -/
def sumSq (m : List (List ℚ)) : ℚ := (m.map (fun r => (r.map (fun x => x ^ 2)).sum)).sum

/-- Exact-real encoding of the float comparison `s ** 0.5 > t` for a
nonnegative `s`: true iff `t < 0` or `t ^ 2 < s`. -/
def sqrtGT (s t : ℚ) : Bool := decide (t < 0) || decide (t ^ 2 < s)

/-- Embedding of `LinearMap.close_to_identity` (core.py lines 187-199).
The line-194 guard `internal_shape[0] != internal_shape[0]` is kept
verbatim; `none` models the broadcasting `ValueError`. -/
def close_to_identity (m : List (List ℚ)) (threshold : ℚ) : Option Bool :=
  if rowsOf m ≠ rowsOf m then some false
  else
    match broadcastSub (identityMat (rowsOf m)) m with
    | none => none
    | some diff => if sqrtGT (sumSq diff) threshold then some false else some true

/-! ## Application of a `LinearMap` (core.py lines 201-240)

`__call__` first runs `_has_nans` (a NaN-contaminated dot product of the
flattened input with itself; any NaN makes the scalar NaN). With NaN
handling enabled and NaNs present it computes the boolean mask of NaN
positions, writes `0.0` at the masked positions of the working buffer
(the caller's array itself in `on` mode, a copy in `safe` mode), maps,
writes the sentinel `-1.0` at the masked positions, maps again, compares
the two results with `np.allclose(..., atol=nan_check_threshold)` (numpy
default `rtol = 1e-5`), raises `ValueError` on disagreement, and only
after that check writes `np.nan` back at the masked positions. -/

/-- Embedding of `_has_nans` (core.py lines 13-16). -/
def hasNans (points : Traj) : Bool :=
  points.any (fun fr => fr.any (fun site => site.any (fun x => x.isNone)))

/-- One scalar of a masked assignment: the position holds `v` when the
mask source `o` is NaN there, else keeps the buffer value `b`. -/
def substNan (v o b : RVal) : RVal :=
  match o with
  | none => v
  | some _ => b

/-- Write value `v` at every position of `buf` whose position in `orig`
holds NaN: the in-place masked assignment `buf[np.isnan(orig)] = v`. -/
def writeMask (v : RVal) (orig buf : Traj) : Traj :=
  List.zipWith (List.zipWith (List.zipWith (substNan v))) orig buf

/-- One site vector with every NaN replaced by `v`. -/
def fillSite (v : RVal) (s : List RVal) : List RVal :=
  s.map (fun o => substNan v o o)

/-- The trajectory with every NaN replaced by `v` (the closed form that
successive `writeMask` states of the one buffer reduce to). -/
def maskFill (v : RVal) (p : Traj) : Traj :=
  p.map (fun fr => fr.map (fillSite v))

/-- Scale a dims-vector by a coefficient (NaN propagating). -/
def vscale (c : ℚ) (v : List RVal) : List RVal := v.map (rmul c)

/-- Add two dims-vectors elementwise (NaN propagating). -/
def vadd : List RVal → List RVal → List RVal := List.zipWith radd

/-- The zero dims-vector of the fixed dimension 3. -/
def zeroVec : List RVal := List.replicate 3 (some 0)

/-- One output site of the contraction: `Σ_j row[j] * frame[j]` as a
dims-vector. -/
def rowApply (row : List ℚ) (frame : Frame) : List RVal :=
  (List.zipWith vscale row frame).foldr vadd zeroVec

/-- Modelled from the spec: the contraction primitive `trjdot` of
`aggforce.util` (spec §4.1), whose source is not in `src/` — only its
callers are. `output[f, i, d] = Σ_j M[i, j] * T[f, j, d]`, the same 2-d
transform applied to every frame and dimension independently. -/
def trjdot (points : Traj) (mat : List (List ℚ)) : Traj :=
  points.map (fun frame => mat.map (fun row => rowApply row frame))

/-- Elementwise closeness of two scalars as in `np.isclose`:
`|a - b| ≤ atol + rtol * |b|` with numpy's default `rtol = 1e-5`;
false when either side is NaN. -/
def rclose (atol : ℚ) (a b : RVal) : Bool :=
  match a, b with
  | some x, some y => decide (|x - y| ≤ atol + (1 / 100000) * |y|)
  | _, _ => false

/-- Embedding of `np.allclose(x, y, atol := atol)` for same-shaped
3-d arrays (the two compared results always share a shape here). -/
def allclose (atol : ℚ) (x y : Traj) : Bool :=
  (x.length == y.length) &&
  (List.zip x y).all (fun p =>
    (p.1.length == p.2.length) &&
    (List.zip p.1 p.2).all (fun q =>
      (q.1.length == q.2.length) &&
      (List.zip q.1 q.2).all (fun r => rclose atol r.1 r.2)))

/-- The error raised by `__call__` when the NaN-consistency check fails
(core.py lines 233-236). -/
inductive CallErr
  | nanConsistency
  deriving DecidableEq, Repr

/-- Embedding of `LinearMap.__call__` (core.py lines 201-240). The first
component is the returned array or the raised error; the second is the
content of the caller's `points` buffer when control leaves the method
(in `safe` mode the mutated array is a copy, so the caller's buffer stays
`points`; in `on` mode it is the working buffer itself). -/
def linearCall (lm : LinearMap) (points : Traj) : Except CallErr Traj × Traj :=
  if lm.handle_nans.truthy && hasNans points then
    let b1 := writeMask (some 0) points points
    let raw := trjdot b1 lm.standard_matrix
    let b2 := writeMask (some (-1)) points b1
    let pushed := trjdot b2 lm.standard_matrix
    if allclose lm.nan_check_threshold raw pushed then
      let b3 := writeMask none points b2
      (Except.ok raw, if lm.handle_nans = NanMode.safe then points else b3)
    else
      (Except.error CallErr.nanConsistency,
        if lm.handle_nans = NanMode.safe then points else b2)
  else (Except.ok (trjdot points lm.standard_matrix), points)

/-! ## `LinearMap` construction, grouping path (core.py lines 133-144)

For each cg site the source allocates a zero row of length `n_fg_sites`
and executes `local_map[site_contents] = 1 / len(site_contents)`: the
right-hand side is evaluated first (raising `ZeroDivisionError` for an
empty collection), then numpy fancy-index assignment writes the value at
every listed index (assignment, not accumulation, for duplicates) and
raises `IndexError` for an index out of range. -/

/-- The row assigned for one cg site: value `1 / len(site_contents)` at
every listed index, 0 elsewhere (fancy-index assignment semantics). -/
def groupRow (n : Nat) (g : List Nat) : List ℚ :=
  (List.range n).map (fun j => if j ∈ g then 1 / (g.length : ℚ) else 0)

/-- Exceptions of the grouping-path loop: `1 / len([])` raises
`ZeroDivisionError`; an out-of-range fancy index raises `IndexError`. -/
inductive BuildErr
  | zeroDivision
  | indexError
  deriving DecidableEq, Repr

/-- Embedding of the grouping-path loop of `LinearMap.__init__`
(core.py lines 140-143), processing cg sites in order. -/
def buildRows (n : Nat) : List (List Nat) → Except BuildErr (List (List ℚ))
  | [] => Except.ok []
  | g :: gs =>
    if g.length = 0 then Except.error BuildErr.zeroDivision
    else if g.any (fun j => n ≤ j) then Except.error BuildErr.indexError
    else (buildRows n gs).map (fun rows => groupRow n g :: rows)

/-! ## `LinearMap` algebra (core.py lines 273-317)

Each operation builds a fresh `LinearMap` through `__init__`'s matrix
path, passing the configuration of `self` (the left/primary operand).
With `ℚ` entries the constructor's finiteness check always passes. -/

/-- numpy transpose of a rectangular 2-d array. -/
def transposeMat (m : List (List ℚ)) : List (List ℚ) :=
  (List.range (colsOf m)).map (fun j => m.map (fun row => (row.get? j).getD 0))

/-- numpy `@` product of rectangular 2-d arrays. -/
def matmul (a b : List (List ℚ)) : List (List ℚ) :=
  a.map (fun row => (List.range (colsOf b)).map (fun j =>
    (List.zipWith (fun x brow => x * ((brow.get? j).getD 0)) row b).sum))

/-- Scalar multiple of a 2-d array. -/
def smulMat (c : ℚ) (m : List (List ℚ)) : List (List ℚ) :=
  m.map (fun r => r.map (fun x => c * x))

/-- Elementwise sum of two same-shaped 2-d arrays. -/
def addMat (a b : List (List ℚ)) : List (List ℚ) :=
  List.zipWith (List.zipWith (· + ·)) a b

/-- Embedding of the `LinearMap.T` property (core.py lines 273-280). -/
def lmT (lm : LinearMap) : LinearMap :=
  ⟨transposeMat lm.standard_matrix, lm.handle_nans, lm.nan_check_threshold⟩

/-- Embedding of `LinearMap.__matmul__` (core.py lines 282-288). -/
def lmMatmul (a b : LinearMap) : LinearMap :=
  ⟨matmul a.standard_matrix b.standard_matrix, a.handle_nans, a.nan_check_threshold⟩

/-- Embedding of `LinearMap.__rmul__` (core.py lines 290-296). -/
def lmSmul (c : ℚ) (lm : LinearMap) : LinearMap :=
  ⟨smulMat c lm.standard_matrix, lm.handle_nans, lm.nan_check_threshold⟩

/-- Embedding of `LinearMap.__add__` (core.py lines 298-304). -/
def lmAdd (a b : LinearMap) : LinearMap :=
  ⟨addMat a.standard_matrix b.standard_matrix, a.handle_nans, a.nan_check_threshold⟩

/-- Embedding of `LinearMap.astype` (core.py lines 306-317); the dtype
conversion is an arbitrary entrywise cast. -/
def lmAstype (cast : ℚ → ℚ) (lm : LinearMap) : LinearMap :=
  ⟨lm.standard_matrix.map (fun r => r.map cast), lm.handle_nans, lm.nan_check_threshold⟩

/-! ## `CLAMap` construction (core.py lines 345-398)

`scale` and `trans` are opaque functions on plain (NaN-free) arrays.
`trjdot` with a 3-d factor array applies the per-frame matrix of each
frame (spec §4.7/§4.8): `output[f, i, d] = Σ_j factor[f, j, i] * T[f, j, d]`. -/

/-- A plain 3-d array (no NaN component is needed for `CLAMap` claims). -/
abbrev Arr3 := List (List (List ℚ))

/-- `np.zeros((a, b, c))`. -/
def zeros3 (a b c : Nat) : Arr3 :=
  List.replicate a (List.replicate b (List.replicate c 0))

/-- Elementwise sum of two same-shaped 3-d arrays. -/
def addArr3 (x y : Arr3) : Arr3 :=
  List.zipWith (List.zipWith (List.zipWith (· + ·))) x y

/-- `shape[1]` of a rectangular 3-d array. -/
def dim1 (a : Arr3) : Nat := ((a.head?).map List.length).getD 0

/-- Modelled from the spec: the per-frame branch of `trjdot` of
`aggforce.util` (spec §4.7/§4.8), whose source is not in `src/`. The
factor array holds one (n_fg, n_cg) matrix per frame and
`output[f, i, d] = Σ_j factor[f, j, i] * points[f, j, d]`. -/
def trjdotPF (points factors : Arr3) : Arr3 :=
  List.zipWith (fun frame fmat =>
    (List.range (((fmat.head?).map List.length).getD 0)).map (fun i =>
      (List.range 3).map (fun d =>
        (List.zipWith (fun mrow prow =>
          ((mrow.get? i).getD 0) * ((prow.get? d).getD 0)) fmat frame).sum)))
    points factors

/-- Embedding of `CLAMap` (core.py lines 320-398): the two transform
functions and the site counts fixed at construction (the string tag
store of `_Taggable` carries no behavior used by the claims). -/
structure CLAMap where
  scale : Arr3 → Arr3
  trans : Arr3 → Arr3
  n_fg_sites : Nat
  n_cg_sites : Nat

/-- Construction errors of `CLAMap.__init__` (core.py lines 381-393). -/
inductive CLAErr
  | cgMismatch
  | cgMissing
  deriving DecidableEq, Repr

/-- The zero-probe expression `trjdot(z_points, scale(z_points)) + trans(z_points)`
on the zero-filled (1, n_fg_sites, 3) probe (core.py lines 382-383). -/
def claProbe (scale trans : Arr3 → Arr3) (n_fg : Nat) : Arr3 :=
  addArr3 (trjdotPF (zeros3 1 n_fg 3) (scale (zeros3 1 n_fg 3)))
    (trans (zeros3 1 n_fg 3))

/-- Embedding of `CLAMap.__init__` (core.py lines 345-398). -/
def claInit (scale trans : Arr3 → Arr3) (n_fg : Nat) (n_cg : Option Nat)
    (zeroes_check : Bool) : Except CLAErr CLAMap :=
  if zeroes_check then
    match n_cg with
    | none => Except.ok ⟨scale, trans, n_fg, dim1 (claProbe scale trans n_fg)⟩
    | some c =>
      if c ≠ dim1 (claProbe scale trans n_fg) then Except.error CLAErr.cgMismatch
      else Except.ok ⟨scale, trans, n_fg, c⟩
  else
    match n_cg with
    | none => Except.error CLAErr.cgMissing
    | some c => Except.ok ⟨scale, trans, n_fg, c⟩

/-! ## `flat_call` input validation (core.py lines 242-264)

`flat_call` reads `flattened.shape`, raises the documented rank error
only when the rank is exactly 3, and then reads `flattened.shape[1]` for
the divisibility check — an access that raises `IndexError` (tuple index
out of range) when the rank is below 2. -/

/-- Exceptions of the `flat_call` validation prefix. -/
inductive FlatErr
  | rankError
  | indexError
  | divisibilityError
  deriving DecidableEq, Repr

/-- Embedding of the validation prefix of `LinearMap.flat_call`
(core.py lines 258-264), acting on the input's shape tuple. -/
def flatCallValidate (shape : List Nat) : Except FlatErr Nat :=
  if shape.length = 3 then Except.error FlatErr.rankError
  else
    match shape.get? 1 with
    | none => Except.error FlatErr.indexError
    | some w =>
      if w % 3 ≠ 0 then Except.error FlatErr.divisibilityError
      else Except.ok w

/-! ## Concrete data for the spec scenarios -/

/-- Every entry of a trajectory is finite (no NaN). -/
def trajAllSome (t : Traj) : Prop := ∀ fr ∈ t, ∀ s ∈ fr, ∀ x ∈ s, x.isSome

/-- The spec §8 scenario `scale`: returns an all-zero (1, 6, 2) array. -/
def zscale : Arr3 → Arr3 := fun _ => zeros3 1 6 2

/-- The spec §8 scenario `trans`: returns an all-zero (1, 2, 3) array. -/
def ztrans : Arr3 → Arr3 := fun _ => zeros3 1 2 3

end Aggforce

namespace Aggforce

/-! ## Helper lemmas -/

/-- `zipWith` of a list with itself is a `map`. -/
theorem zipWith_self_eq_map {α β : Type} (f : α → α → β) :
    ∀ l : List α, List.zipWith f l l = l.map (fun a => f a a)
  | [] => rfl
  | a :: l => by simp [zipWith_self_eq_map f l]

/-- `zipWith` of a list with a `map` of itself is a `map`. -/
theorem zipWith_map_same {α β γ : Type} (f : α → β → γ) (g : α → β) :
    ∀ l : List α, List.zipWith f l (l.map g) = l.map (fun a => f a (g a))
  | [] => rfl
  | a :: l => by simp [zipWith_map_same f g l]

/-- Writing at the masked positions twice keeps only the last write. -/
theorem substNan_substNan (v w o : RVal) :
    substNan v o (substNan w o o) = substNan v o o := by
  cases o <;> rfl

/-- The first masked write to the untouched buffer. -/
theorem writeMask_self (v : RVal) (p : Traj) : writeMask v p p = maskFill v p := by
  simp only [writeMask, maskFill, fillSite, zipWith_self_eq_map]
  rfl

/-- A masked write over a previous masked write keeps only the last value. -/
theorem writeMask_maskFill (v w : RVal) (p : Traj) :
    writeMask v p (maskFill w p) = maskFill v p := by
  simp only [writeMask, maskFill, fillSite, zipWith_map_same, List.map_map,
    Function.comp, substNan_substNan]
  rfl

/-- Restoring NaN at the masked positions recovers the original buffer. -/
theorem maskFill_none (p : Traj) : maskFill none p = p := by
  have h : ∀ s : List RVal, fillSite none s = s := by
    intro s
    induction s with
    | nil => rfl
    | cons o t ih => cases o <;> simp [fillSite, substNan] at ih ⊢ <;> exact ih
  simp only [maskFill]
  induction p with
  | nil => rfl
  | cons fr t ih =>
    simp only [List.map_cons, ih, List.cons.injEq, and_true]
    induction fr with
    | nil => rfl
    | cons s u ihf => simp [h s, ihf]

/-- Filling the mask with a finite value leaves no NaN. -/
theorem maskFill_allSome (a : ℚ) (p : Traj) : trajAllSome (maskFill (some a) p) := by
  intro fr hfr s hs x hx
  simp only [maskFill, List.mem_map] at hfr
  obtain ⟨fr0, _, rfl⟩ := hfr
  simp only [List.mem_map] at hs
  obtain ⟨s0, _, rfl⟩ := hs
  simp only [fillSite, List.mem_map] at hx
  obtain ⟨x0, _, rfl⟩ := hx
  cases x0 <;> rfl

/-- Unfolding `fillSite` on a cons cell. -/
theorem fillSite_cons (v o : RVal) (t : List RVal) :
    fillSite v (o :: t) = substNan v o o :: fillSite v t := rfl

/-- Unfolding `vscale` on a cons cell. -/
theorem vscale_cons (c : ℚ) (x : RVal) (s : List RVal) :
    vscale c (x :: s) = rmul c x :: vscale c s := rfl

/-- A NaN-free trajectory fails the `_has_nans` test. -/
theorem hasNans_eq_false (t : Traj) (h : trajAllSome t) : hasNans t = false := by
  simp only [hasNans, List.any_eq_false, Bool.not_eq_true]
  intro fr hfr s hs x hx
  have hsome := h fr hfr s hs x hx
  cases x
  · exact absurd hsome (by simp)
  · rfl

/-- A trajectory that fails the `_has_nans` test is NaN-free. -/
theorem allSome_of_hasNans_false (t : Traj) (h : hasNans t = false) :
    trajAllSome t := by
  intro fr hfr s hs x hx
  simp only [hasNans, List.any_eq_false, Bool.not_eq_true] at h
  have h3 := h fr hfr s hs x hx
  cases x
  · simp at h3
  · rfl

/-- Filling the mask of a NaN-free site does nothing. -/
theorem fillSite_of_allSome (v : RVal) :
    ∀ s : List RVal, (∀ x ∈ s, x.isSome) → fillSite v s = s
  | [], _ => rfl
  | o :: t, h => by
    obtain ⟨a, rfl⟩ := Option.isSome_iff_exists.mp (h o (by simp))
    rw [fillSite_cons, fillSite_of_allSome v t (fun x hx => h x (by simp [hx]))]
    rfl

/-- Filling the mask of a NaN-free trajectory does nothing. -/
theorem maskFill_of_no_nans (v : RVal) (t : Traj) (h : hasNans t = false) :
    maskFill v t = t := by
  have hall := allSome_of_hasNans_false t h
  simp only [maskFill]
  conv_rhs => rw [show t = t.map id from (List.map_id t).symm]
  apply List.map_congr_left
  intro fr hfr
  conv_rhs => rw [show (id fr : Frame) = fr.map id from (List.map_id fr).symm]
  apply List.map_congr_left
  intro s hs
  exact fillSite_of_allSome v s (hall fr hfr s hs)

/-- `zip` of a list with itself is a `map`. -/
theorem zip_self_eq_map {α : Type} :
    ∀ l : List α, l.zip l = l.map (fun a => (a, a))
  | [] => rfl
  | a :: l => by simp [zip_self_eq_map l]

/-- `np.allclose` of a NaN-free array with itself holds for a
nonnegative absolute tolerance. -/
theorem allclose_self (atol : ℚ) (h : 0 ≤ atol) (t : Traj) (ht : trajAllSome t) :
    allclose atol t t = true := by
  simp only [allclose, beq_self_eq_true, Bool.true_and, zip_self_eq_map,
    List.all_eq_true]
  intro fr hfr
  simp only [List.mem_map] at hfr
  obtain ⟨fr0, hfr0, rfl⟩ := hfr
  simp only [beq_self_eq_true, Bool.true_and, zip_self_eq_map, List.all_eq_true]
  intro s hs
  simp only [List.mem_map] at hs
  obtain ⟨s0, hs0, rfl⟩ := hs
  simp only [beq_self_eq_true, Bool.true_and, zip_self_eq_map, List.all_eq_true]
  intro x hx
  simp only [List.mem_map] at hx
  obtain ⟨x0, hx0, rfl⟩ := hx
  have hsome := ht fr0 hfr0 s0 hs0 x0 hx0
  obtain ⟨a, rfl⟩ := Option.isSome_iff_exists.mp hsome
  simp only [rclose, sub_self, abs_zero, decide_eq_true_eq]
  exact add_nonneg h (by positivity)

/-- Unfolding `rowApply` on cons cells. -/
theorem rowApply_cons (r : ℚ) (rs : List ℚ) (s : List RVal) (fs : Frame) :
    rowApply (r :: rs) (s :: fs) = vadd (vscale r s) (rowApply rs fs) := rfl

/-- The zero vector is NaN-free. -/
theorem zeroVec_allSome : ∀ x ∈ zeroVec, x.isSome := by
  intro x hx
  simp only [zeroVec, List.mem_replicate] at hx
  rw [hx.2]
  rfl

/-- `vadd` of NaN-free vectors is NaN-free. -/
theorem vadd_allSome :
    ∀ (v1 v2 : List RVal), (∀ x ∈ v1, x.isSome) → (∀ x ∈ v2, x.isSome) →
      ∀ x ∈ vadd v1 v2, x.isSome
  | [], _, _, _ => by simp [vadd]
  | _ :: _, [], _, _ => by simp [vadd]
  | a :: t, b :: u, h1, h2 => by
    intro x hx
    simp only [vadd, List.zipWith_cons_cons, List.mem_cons] at hx
    rcases hx with hx | hx
    · obtain ⟨a0, rfl⟩ := Option.isSome_iff_exists.mp (h1 a (by simp))
      obtain ⟨b0, rfl⟩ := Option.isSome_iff_exists.mp (h2 b (by simp))
      rw [hx]
      rfl
    · exact vadd_allSome t u (fun y hy => h1 y (by simp [hy]))
        (fun y hy => h2 y (by simp [hy])) x hx

/-- `vscale` of a NaN-free vector is NaN-free. -/
theorem vscale_allSome (c : ℚ) (s : List RVal) (h : ∀ x ∈ s, x.isSome) :
    ∀ x ∈ vscale c s, x.isSome := by
  intro x hx
  simp only [vscale, List.mem_map] at hx
  obtain ⟨x0, hx0, rfl⟩ := hx
  obtain ⟨a, rfl⟩ := Option.isSome_iff_exists.mp (h x0 hx0)
  rfl

/-- `rowApply` over a NaN-free frame is NaN-free. -/
theorem rowApply_allSome :
    ∀ (row : List ℚ) (fr : Frame), (∀ s ∈ fr, ∀ x ∈ s, x.isSome) →
      ∀ x ∈ rowApply row fr, x.isSome
  | [], fr, _ => by
    intro x hx
    exact zeroVec_allSome x hx
  | _ :: _, [], _ => by
    intro x hx
    exact zeroVec_allSome x hx
  | r :: rs, s :: fs, h => by
    rw [rowApply_cons]
    exact vadd_allSome _ _
      (vscale_allSome r s (h s (by simp)))
      (rowApply_allSome rs fs (fun y hy => h y (by simp [hy])))

/-- `trjdot` of a NaN-free trajectory is NaN-free. -/
theorem trjdot_allSome (pts : Traj) (M : List (List ℚ)) (h : trajAllSome pts) :
    trajAllSome (trjdot pts M) := by
  intro fr hfr s hs x hx
  simp only [trjdot, List.mem_map] at hfr
  obtain ⟨fr0, hfr0, rfl⟩ := hfr
  simp only [List.mem_map] at hs
  obtain ⟨row, _, rfl⟩ := hs
  exact rowApply_allSome row fr0 (h fr0 hfr0) x hx

/-- Filling a NaN-free site does nothing. -/
theorem fillSite_of_no_nan (v : RVal) :
    ∀ s : List RVal, ¬ none ∈ s → fillSite v s = s
  | [], _ => rfl
  | o :: t, h => by
    cases o
    · exact absurd (by simp) h
    · rw [fillSite_cons, fillSite_of_no_nan v t (fun hm => h (by simp [hm]))]
      rfl

/-- Scaling by coefficient 0 erases the difference between two mask
fillings of the same NaN-bearing site. -/
theorem vscale_zero_fill (u w : RVal) (hu : u.isSome) (hw : w.isSome) :
    ∀ s : List RVal, vscale 0 (fillSite u s) = vscale 0 (fillSite w s)
  | [] => rfl
  | o :: t => by
    rw [fillSite_cons, fillSite_cons, vscale_cons, vscale_cons,
      vscale_zero_fill u w hu hw t]
    have hh : rmul 0 (substNan u o o) = rmul 0 (substNan w o o) := by
      cases o
      · obtain ⟨a, rfl⟩ := Option.isSome_iff_exists.mp hu
        obtain ⟨b, rfl⟩ := Option.isSome_iff_exists.mp hw
        simp [substNan, rmul]
      · rfl
    rw [hh]

/-- The key cancellation: two mask fillings of a frame map identically
under a row whose coefficient is zero at every NaN-bearing site. -/
theorem rowApply_fill (u w : RVal) (hu : u.isSome) (hw : w.isSome) :
    ∀ (row : List ℚ) (fr : Frame),
      (∀ j site, fr.get? j = some site → none ∈ site → row.get? j = some 0) →
      rowApply row (fr.map (fillSite u)) = rowApply row (fr.map (fillSite w))
  | [], fr, _ => rfl
  | _ :: _, [], _ => rfl
  | r :: rs, s :: fs, h => by
    simp only [List.map_cons, rowApply_cons]
    rw [rowApply_fill u w hu hw rs fs
      (fun j site hj hmem => h (j + 1) site (by simpa using hj) hmem)]
    by_cases hmem : none ∈ s
    · have hr : r = 0 := by
        have := h 0 s rfl hmem
        simpa using this
      rw [hr, vscale_zero_fill u w hu hw s]
    · rw [fillSite_of_no_nan u s hmem, fillSite_of_no_nan w s hmem]

/-- Two mask fillings of the input are indistinguishable through the map
when the coefficient of every NaN-bearing site is zero in every row. -/
theorem trjdot_fill_eq (M : List (List ℚ)) (pts : Traj) (u w : RVal)
    (hu : u.isSome) (hw : w.isSome)
    (hzero : ∀ fr ∈ pts, ∀ j site, fr.get? j = some site → none ∈ site →
      ∀ row ∈ M, row.get? j = some 0) :
    trjdot (maskFill u pts) M = trjdot (maskFill w pts) M := by
  simp only [trjdot, maskFill, List.map_map, Function.comp]
  apply List.map_congr_left
  intro fr hfr
  apply List.map_congr_left
  intro row hrow
  exact rowApply_fill u w hu hw row fr
    (fun j site hj hmem => hzero fr hfr j site hj hmem row hrow)

/-- C1: `close_to_identity` never takes its `return False` branch for
non-squareness: the identity matrix of any size passes at threshold 0, but
the 1×2 matrix [[1, 1]] — not square — also returns `True`, and the 3×2
matrix below raises a broadcasting error (`none`) instead of returning
`False`. The line-194 guard compares `shape[0]` with itself, so the claim
that every non-square matrix yields `False` is violated by the code. -/
theorem C1_close_to_identity_nonsquare_bug :
    close_to_identity (identityMat 2) 0 = some true
      ∧ close_to_identity [[1, 1]] (1 / 100000000) = some true
      ∧ rowsOf [[(1 : ℚ), 1]] ≠ colsOf [[(1 : ℚ), 1]]
      ∧ close_to_identity [[1, 0], [0, 1], [0, 0]] (1 / 100000000) = none := by
  refine ⟨?_, ?_, by decide, ?_⟩ <;>
    norm_num [close_to_identity, broadcastSub, identityMat, rowsOf, colsOf,
      bcompat, bidx, getElem2, sumSq, sqrtGT, List.range_succ]

end Aggforce

namespace Aggforce

/-- C2: on the consistency-error path in `on` mode the caller's buffer is
NOT restored: the restoring write of core.py line 237 sits after the
`raise` of lines 233-236, so the call leaves the sentinel `-1.0` at the
masked positions of the caller's array. Evaluated at a failing input:
the one-row map [[0.5, 0.5]] applied to an input whose first site is NaN
raises the consistency error and leaves the buffer holding `-1.0` where
the caller had NaN — the final buffer differs from the original. -/
theorem C2_error_path_leaves_sentinels :
    linearCall ⟨[[1/2, 1/2]], NanMode.on, 1/1000000⟩
        [[[none, some 1, some 1], [some 1, some 1, some 1]]]
      = (Except.error CallErr.nanConsistency,
         [[[some (-1), some 1, some 1], [some 1, some 1, some 1]]])
    ∧ ([[[some (-1 : ℚ), some 1, some 1], [some 1, some 1, some 1]]] : Traj)
        ≠ [[[none, some 1, some 1], [some 1, some 1, some 1]]] := by
  have hc : ¬ (|(1 : ℚ) / 2| ≤ 1 / 1000000) := by
    rw [abs_of_pos (by norm_num : (0:ℚ) < 1/2)]
    norm_num
  constructor
  · norm_num [linearCall, NanMode.truthy, hasNans, writeMask, substNan, trjdot,
      rowApply, vscale, vadd, zeroVec, rmul, radd, allclose, rclose,
      List.replicate]
    rw [if_neg hc]
    simp
  · simp

/-- C3 counterexample: NaNs at two sites whose coefficients are both
nonzero (1/2 and -1/2) cancel in the consistency comparison, so the call
returns normally instead of raising — refuting the claim that a NaN at
any position with nonzero coefficient raises the consistency error. -/
theorem C3_cancellation_no_error :
    (linearCall ⟨[[1/2, -1/2]], NanMode.on, 1/1000000⟩
        [[[none, some 1, some 1], [none, some 2, some 2]]]).1
      = Except.ok [[[some 0, some (-(1/2)), some (-(1/2))]]]
    ∧ hasNans [[[none, some 1, some 1], [none, some 2, some 2]]] = true
    ∧ getElem2 [[1/2, -1/2]] 0 0 ≠ 0
    ∧ getElem2 [[1/2, -1/2]] 0 1 ≠ 0 := by
  refine ⟨?_, rfl, by norm_num [getElem2], by norm_num [getElem2]⟩
  have hp : (0:ℚ) ≤ 1 / 1000000 + 1 / 100000 * |(1:ℚ) / 2| := by positivity
  norm_num [linearCall, NanMode.truthy, hasNans, writeMask, substNan, trjdot,
    rowApply, vscale, vadd, zeroVec, rmul, radd, allclose, rclose,
    List.replicate]
  rw [if_pos hp]

/-- C3 (amended): with NaN handling enabled and NaNs present, the call
raises the numerical-consistency error exactly when the zero-substituted
and sentinel-substituted results disagree under `np.allclose` with
`atol = nan_check_threshold`; contributions of several NaN positions with
nonzero coefficients can cancel, in which case no error is raised. -/
theorem C3_consistency_error_iff_allclose (lm : LinearMap) (pts : Traj)
    (hmode : lm.handle_nans.truthy = true) (hnan : hasNans pts = true) :
    (linearCall lm pts).1 = Except.error CallErr.nanConsistency
      ↔ allclose lm.nan_check_threshold
          (trjdot (maskFill (some 0) pts) lm.standard_matrix)
          (trjdot (maskFill (some (-1)) pts) lm.standard_matrix) = false := by
  simp only [linearCall, hmode, hnan, Bool.and_self, if_true, writeMask_self,
    writeMask_maskFill, Bool.true_and]
  cases hac : allclose lm.nan_check_threshold
      (trjdot (maskFill (some 0) pts) lm.standard_matrix)
      (trjdot (maskFill (some (-1)) pts) lm.standard_matrix)
  · simp
  · simp

/-- C3 witness: the spec's own scenario — weights [0.5, 0.5] over two fg
sites, input with one of the two sites NaN — raises the consistency
error, by the amended criterion. -/
theorem C3_consistency_error_iff_allclose_witness :
    (linearCall ⟨[[1/2, 1/2]], NanMode.on, 1/1000000⟩
        [[[some 3, some 3, none], [some 5, some 5, some 5]]]).1
      = Except.error CallErr.nanConsistency := by
  refine (C3_consistency_error_iff_allclose
    ⟨[[1/2, 1/2]], NanMode.on, 1/1000000⟩
    [[[some 3, some 3, none], [some 5, some 5, some 5]]] rfl rfl).mpr ?_
  norm_num [maskFill, fillSite, substNan, trjdot, rowApply, vscale, vadd,
    zeroVec, rmul, radd, allclose, rclose, List.replicate]
  rw [abs_of_pos (by norm_num : (0:ℚ) < 1/2)]
  norm_num

/-- C4: when every NaN of the input sits at a site whose coefficient is
zero in every row, the call succeeds, returns exactly the result of
applying the same map to the input with those NaNs replaced by 0, and the
caller's buffer again holds the original contents (NaNs restored) when
the call returns. -/
theorem C4_nan_roundtrip (lm : LinearMap) (pts : Traj)
    (hmode : lm.handle_nans = NanMode.on)
    (hthr : 0 ≤ lm.nan_check_threshold)
    (hzero : ∀ fr ∈ pts, ∀ j site, fr.get? j = some site → none ∈ site →
      ∀ row ∈ lm.standard_matrix, row.get? j = some 0) :
    linearCall lm pts = ((linearCall lm (maskFill (some 0) pts)).1, pts) := by
  have hfillsome : trajAllSome (maskFill (some 0) pts) := maskFill_allSome 0 pts
  have hfillnonan : hasNans (maskFill (some 0) pts) = false :=
    hasNans_eq_false _ hfillsome
  have hRHS : (linearCall lm (maskFill (some 0) pts)).1
      = Except.ok (trjdot (maskFill (some 0) pts) lm.standard_matrix) := by
    simp [linearCall, hfillnonan]
  rw [hRHS]
  by_cases hn : hasNans pts = true
  · have htr : lm.handle_nans.truthy = true := by rw [hmode]; rfl
    have heq : trjdot (maskFill (some 0) pts) lm.standard_matrix
        = trjdot (maskFill (some (-1)) pts) lm.standard_matrix :=
      trjdot_fill_eq _ pts (some 0) (some (-1)) rfl rfl hzero
    have hac : allclose lm.nan_check_threshold
        (trjdot (maskFill (some 0) pts) lm.standard_matrix)
        (trjdot (maskFill (some (-1)) pts) lm.standard_matrix) = true := by
      rw [← heq]
      exact allclose_self _ hthr _ (trjdot_allSome _ _ hfillsome)
    simp only [linearCall, htr, hn, Bool.and_self, if_true, writeMask_self,
      writeMask_maskFill, hac, maskFill_none, Bool.true_and]
    simp [hmode]
  · have hfalse : hasNans pts = false := by
      revert hn
      cases hasNans pts <;> simp
    rw [maskFill_of_no_nans _ _ hfalse]
    simp [linearCall, hfalse]

/-- C4 witness: a map [[0, 1]] (zero coefficient at site 0 in the only
row) applied to an input with NaNs only at site 0 returns the result of
the zero-substituted input and restores the buffer. -/
theorem C4_nan_roundtrip_witness :
    linearCall ⟨[[0, 1]], NanMode.on, 1/1000000⟩
        [[[none, some 2, none], [some 5, some 6, some 7]]]
      = ((linearCall ⟨[[0, 1]], NanMode.on, 1/1000000⟩
            (maskFill (some 0)
              [[[none, some 2, none], [some 5, some 6, some 7]]])).1,
          [[[none, some 2, none], [some 5, some 6, some 7]]]) := by
  refine C4_nan_roundtrip _ _ rfl (by norm_num) ?_
  intro fr hfr j site hj hmem row hrow
  simp only [List.mem_singleton] at hfr hrow
  subst hfr
  subst hrow
  match j with
  | 0 => rfl
  | 1 =>
    simp only [List.get?] at hj
    cases hj
    simp at hmem
  | n + 2 =>
    simp [List.get?] at hj

end Aggforce

namespace Aggforce

/-- Sum of an indicator row over `range n`. -/
theorem sum_range_indicator (g : List Nat) (c : ℚ) :
    ∀ n : Nat, ((List.range n).map (fun j => if j ∈ g then c else 0)).sum
      = (((List.range n).filter (fun j => decide (j ∈ g))).length : ℚ) * c
  | 0 => by simp
  | n + 1 => by
    rw [List.range_succ]
    simp only [List.map_append, List.sum_append, List.filter_append,
      List.length_append, sum_range_indicator g c n]
    by_cases h : n ∈ g
    · simp only [h, if_true, List.filter_cons, List.map_cons, List.sum_cons,
        List.map_nil, List.sum_nil, List.length_nil]
      simp only [decide_eq_true_eq, h, if_true, List.length_cons,
        List.filter_nil, List.length_nil]
      push_cast
      ring
    · simp [h]

/-- Distinct listed indices below the bound count the filtered range. -/
theorem filter_range_length (g : List Nat) (n : Nat)
    (hrange : ∀ j ∈ g, j < n) :
    ((List.range n).filter (fun j => decide (j ∈ g))).length = g.dedup.length := by
  have hnodup : ((List.range n).filter (fun j => decide (j ∈ g))).Nodup :=
    (List.nodup_range n).filter _
  rw [← List.card_toFinset g, ← List.toFinset_card_of_nodup hnodup]
  congr 1
  ext x
  simp only [List.mem_toFinset, List.mem_filter, List.mem_range,
    decide_eq_true_eq]
  exact ⟨fun h => h.2, fun h => ⟨hrange x h, h⟩⟩

/-- The row built for one cg site, read at an in-range column. -/
theorem groupRow_get (n : Nat) (g : List Nat) (j : Nat) (hj : j < n) :
    (groupRow n g).get? j = some (if j ∈ g then 1 / (g.length : ℚ) else 0) := by
  simp [groupRow, List.get?_eq_getElem?, List.getElem?_map,
    List.getElem?_range hj]

/-- The grouping loop emits exactly `groupRow` for every listed cg site. -/
theorem buildRows_get :
    ∀ (mapping : List (List Nat)) (n : Nat) (rows : List (List ℚ)),
      buildRows n mapping = Except.ok rows →
      ∀ i g, mapping.get? i = some g → rows.get? i = some (groupRow n g)
  | [], _, rows, _ => by
    intro i g hi
    simp at hi
  | g0 :: gs, n, rows, h => by
    intro i g hi
    simp only [buildRows] at h
    by_cases h0 : g0.length = 0
    · rw [if_pos h0] at h
      exact absurd h (by simp)
    rw [if_neg h0] at h
    by_cases h1 : g0.any (fun j => n ≤ j) = true
    · rw [if_pos h1] at h
      exact absurd h (by simp)
    rw [if_neg h1] at h
    cases hb : buildRows n gs with
    | error e =>
      rw [hb] at h
      exact absurd h (by simp [Except.map])
    | ok rows0 =>
      rw [hb] at h
      simp only [Except.map, Except.ok.injEq] at h
      subst h
      match i, hi with
      | 0, hi =>
        injection hi with hi
        subst hi
        rfl
      | i + 1, hi => exact buildRows_get gs n rows0 hb i g hi

/-- C5: every grouping-path row places weight `1/len(site_contents)` at
each listed fg index and 0 elsewhere; at the spec scenario
mapping=[[0,2,3],[4]], n_fg_sites=6, the matrix is
[[1/3,0,1/3,1/3,0,0],[0,0,0,0,1,0]], and applying it to the single frame
with site k at (k,k,k) yields [(5/3,5/3,5/3),(4,4,4)]. -/
theorem C5_grouping_uniform_rows :
    (∀ (mapping : List (List Nat)) (n : Nat) (rows : List (List ℚ)),
        buildRows n mapping = Except.ok rows →
        ∀ i g, mapping.get? i = some g →
          rows.get? i = some (groupRow n g) ∧ (groupRow n g).length = n ∧
          (∀ j, j < n → j ∈ g →
            (groupRow n g).get? j = some (1 / (g.length : ℚ))) ∧
          (∀ j, j < n → j ∉ g → (groupRow n g).get? j = some 0))
    ∧ buildRows 6 [[0, 2, 3], [4]]
        = Except.ok [[1/3, 0, 1/3, 1/3, 0, 0], [0, 0, 0, 0, 1, 0]]
    ∧ trjdot
        [[[some 0, some 0, some 0], [some 1, some 1, some 1],
          [some 2, some 2, some 2], [some 3, some 3, some 3],
          [some 4, some 4, some 4], [some 5, some 5, some 5]]]
        [[1/3, 0, 1/3, 1/3, 0, 0], [0, 0, 0, 0, 1, 0]]
        = [[[some (5/3), some (5/3), some (5/3)], [some 4, some 4, some 4]]] := by
  refine ⟨?_, ?_, ?_⟩
  · intro mapping n rows hb i g hi
    refine ⟨buildRows_get mapping n rows hb i g hi, by simp [groupRow], ?_, ?_⟩
    · intro j hj hmem
      rw [groupRow_get n g j hj, if_pos hmem]
    · intro j hj hmem
      rw [groupRow_get n g j hj, if_neg hmem]
  · norm_num [buildRows, groupRow, List.range_succ, Except.map]
  · norm_num [trjdot, rowApply, vscale, vadd, zeroVec, rmul, radd,
      List.replicate]

/-- C5 witness: the general row description instantiated at the spec
scenario. -/
theorem C5_grouping_uniform_rows_witness :
    ([[1/3, 0, 1/3, 1/3, 0, 0], [0, 0, 0, 0, 1, 0]] : List (List ℚ)).get? 0
        = some (groupRow 6 [0, 2, 3])
      ∧ (groupRow 6 [0, 2, 3]).get? 2
          = some (1 / (([0, 2, 3] : List Nat).length : ℚ))
      ∧ (groupRow 6 [0, 2, 3]).get? 1 = some 0 := by
  obtain ⟨hgen, hbuild, _⟩ := C5_grouping_uniform_rows
  have h := hgen [[0, 2, 3], [4]] 6 _ hbuild 0 [0, 2, 3] rfl
  exact ⟨h.1, h.2.2.1 2 (by decide) (by decide), h.2.2.2 1 (by decide) (by decide)⟩

/-- C7: each algebraic operation returns a fresh `LinearMap` whose
`handle_nans` and `nan_check_threshold` come from the left/primary
operand and whose matrix is the stated function of the operand matrices;
the operand itself is a value the operations never write to (all five are
pure functions of it). -/
theorem C7_algebra_preserves_config (lm lm2 : LinearMap) (c : ℚ)
    (cast : ℚ → ℚ) :
    ((lmT lm).handle_nans = lm.handle_nans
      ∧ (lmT lm).nan_check_threshold = lm.nan_check_threshold
      ∧ (lmT lm).standard_matrix = transposeMat lm.standard_matrix)
    ∧ ((lmMatmul lm lm2).handle_nans = lm.handle_nans
      ∧ (lmMatmul lm lm2).nan_check_threshold = lm.nan_check_threshold
      ∧ (lmMatmul lm lm2).standard_matrix
          = matmul lm.standard_matrix lm2.standard_matrix)
    ∧ ((lmSmul c lm).handle_nans = lm.handle_nans
      ∧ (lmSmul c lm).nan_check_threshold = lm.nan_check_threshold
      ∧ (lmSmul c lm).standard_matrix = smulMat c lm.standard_matrix)
    ∧ ((lmAdd lm lm2).handle_nans = lm.handle_nans
      ∧ (lmAdd lm lm2).nan_check_threshold = lm.nan_check_threshold
      ∧ (lmAdd lm lm2).standard_matrix
          = addMat lm.standard_matrix lm2.standard_matrix)
    ∧ ((lmAstype cast lm).handle_nans = lm.handle_nans
      ∧ (lmAstype cast lm).nan_check_threshold = lm.nan_check_threshold
      ∧ (lmAstype cast lm).standard_matrix
          = lm.standard_matrix.map (fun r => r.map cast)) :=
  ⟨⟨rfl, rfl, rfl⟩, ⟨rfl, rfl, rfl⟩, ⟨rfl, rfl, rfl⟩, ⟨rfl, rfl, rfl⟩,
    ⟨rfl, rfl, rfl⟩⟩

/-- C8: a grouping construction containing an empty fg-index collection
fails with the division-by-zero error (from `1 / len(site_contents)`),
provided the listed indices are in range (an out-of-range index in an
earlier group would raise `IndexError` first). -/
theorem C8_empty_group_division_error :
    ∀ (mapping : List (List Nat)) (n : Nat),
      (∀ g ∈ mapping, ∀ j ∈ g, j < n) →
      (∃ g ∈ mapping, g = []) →
      buildRows n mapping = Except.error BuildErr.zeroDivision
  | [], _, _, hempty => by simp at hempty
  | g0 :: gs, n, hrange, hempty => by
    by_cases h0 : g0.length = 0
    · simp only [buildRows]
      rw [if_pos h0]
    · simp only [buildRows]
      rw [if_neg h0]
      have h1 : g0.any (fun j => n ≤ j) = false := by
        simp only [List.any_eq_false, Bool.not_eq_true, decide_eq_false_iff_not,
          Nat.not_le]
        intro j hj
        exact hrange g0 (by simp) j hj
      rw [h1]
      simp only [Bool.false_eq_true, if_false]
      have hgs : ∃ g ∈ gs, g = [] := by
        rcases hempty with ⟨g, hg, rfl⟩
        rcases List.mem_cons.mp hg with h | h
        · subst h
          exact absurd rfl h0
        · exact ⟨[], h, rfl⟩
      rw [C8_empty_group_division_error gs n
        (fun g hg => hrange g (by simp [hg])) hgs]
      rfl

/-- C8 witness: the empty second group makes construction fail with the
division-by-zero error. -/
theorem C8_empty_group_division_error_witness :
    buildRows 1 [[0], []] = Except.error BuildErr.zeroDivision :=
  C8_empty_group_division_error [[0], []] 1 (by decide) ⟨[], by simp, rfl⟩

/-- C9: with duplicate listed indices, the fancy-index assignment writes
`1/len(site_contents)` once per distinct index, so the row sums to
(number of distinct listed indices) / len(site_contents) instead of 1. -/
theorem C9_duplicate_indices_row (n : Nat) (g : List Nat)
    (hrange : ∀ j ∈ g, j < n) :
    (∀ j ∈ g, (groupRow n g).get? j = some (1 / (g.length : ℚ)))
    ∧ (groupRow n g).sum = (g.dedup.length : ℚ) / (g.length : ℚ) := by
  constructor
  · intro j hj
    rw [groupRow_get n g j (hrange j hj), if_pos hj]
  · rw [groupRow, sum_range_indicator g (1 / (g.length : ℚ)) n,
      filter_range_length g n hrange, mul_one_div]

/-- C9 witness: the duplicated listing [0, 0, 1] over 2 columns yields
row [1/3, 1/3] with sum 2/3 = (2 distinct) / (3 listed). -/
theorem C9_duplicate_indices_row_witness :
    ((groupRow 2 [0, 0, 1]).get? 0
        = some (1 / (([0, 0, 1] : List Nat).length : ℚ)))
    ∧ (groupRow 2 [0, 0, 1]).sum
        = ((([0, 0, 1] : List Nat).dedup.length : ℚ)
            / (([0, 0, 1] : List Nat).length : ℚ)) := by
  have h := C9_duplicate_indices_row 2 [0, 0, 1] (by decide)
  exact ⟨h.1 0 (by decide), h.2⟩

/-- C10: the explicit rank guard of `flat_call` fires exactly at rank 3;
every rank-1 shape passes the guard and instead fails at the `shape[1]`
lookup (`IndexError`), so wrong-rank inputs other than rank 3 never
produce the documented rank error. -/
theorem C10_flat_call_rank_guard :
    (∀ s : List Nat, s.length = 3 →
        flatCallValidate s = Except.error FlatErr.rankError)
    ∧ (∀ s : List Nat, s.length ≠ 3 →
        flatCallValidate s ≠ Except.error FlatErr.rankError)
    ∧ (∀ s : List Nat, s.length = 1 →
        flatCallValidate s = Except.error FlatErr.indexError) := by
  refine ⟨?_, ?_, ?_⟩
  · intro s h
    simp [flatCallValidate, h]
  · intro s h
    simp only [flatCallValidate, if_neg h]
    cases hs : s.get? 1 with
    | none => simp
    | some w =>
      by_cases hw : w % 3 ≠ 0
      · simp [hw]
      · simp [hw]
  · intro s h
    have hs : s[1]? = none := List.getElem?_eq_none (by omega)
    simp [flatCallValidate, h, hs]

/-- C10 witness: a rank-3 shape is rejected by the rank guard, a rank-1
shape reaches the missing-axis lookup, and a rank-2 shape is never
rejected by the rank error. -/
theorem C10_flat_call_rank_guard_witness :
    flatCallValidate [2, 3, 4] = Except.error FlatErr.rankError
    ∧ flatCallValidate [5] = Except.error FlatErr.indexError
    ∧ flatCallValidate [2, 5] ≠ Except.error FlatErr.rankError :=
  ⟨C10_flat_call_rank_guard.1 _ rfl,
    C10_flat_call_rank_guard.2.2 _ rfl,
    C10_flat_call_rank_guard.2.1 _ (by decide)⟩

/-- C6: with `zeroes_check` on, construction evaluates the zero-probe
expression, infers `n_cg_sites` from its second dimension when it is
`None`, errors when a supplied count disagrees with that dimension, and
with `zeroes_check` off and no count errors; at the spec scenario
(all-zero (1,6,2) `scale`, all-zero (1,2,3) `trans`) the inferred count
is 2. -/
theorem C6_cla_zero_probe (scale trans : Arr3 → Arr3) (n_fg c : Nat) :
    (claInit scale trans n_fg none true
        = Except.ok ⟨scale, trans, n_fg, dim1 (claProbe scale trans n_fg)⟩)
    ∧ (c ≠ dim1 (claProbe scale trans n_fg) →
        claInit scale trans n_fg (some c) true = Except.error CLAErr.cgMismatch)
    ∧ (c = dim1 (claProbe scale trans n_fg) →
        claInit scale trans n_fg (some c) true
          = Except.ok ⟨scale, trans, n_fg, c⟩)
    ∧ (claInit scale trans n_fg none false = Except.error CLAErr.cgMissing)
    ∧ dim1 (claProbe zscale ztrans 6) = 2
    ∧ claInit zscale ztrans 6 none true = Except.ok ⟨zscale, ztrans, 6, 2⟩ := by
  refine ⟨rfl, ?_, ?_, rfl, rfl, rfl⟩
  · intro h
    simp only [claInit, if_true]
    rw [if_pos h]
  · intro h
    simp only [claInit, if_true]
    rw [if_neg (not_ne_iff.mpr h)]

/-- C6 witness: supplying `n_cg_sites = 3` against the probe dimension 2
fails construction; omitting it with `zeroes_check` off also fails. -/
theorem C6_cla_zero_probe_witness :
    claInit zscale ztrans 6 (some 3) true = Except.error CLAErr.cgMismatch
    ∧ claInit zscale ztrans 6 none false = Except.error CLAErr.cgMissing :=
  ⟨(C6_cla_zero_probe zscale ztrans 6 3).2.1 (by decide),
    (C6_cla_zero_probe zscale ztrans 6 3).2.2.2.1⟩

end Aggforce
